import Mathlib

/-!
Verification of the core of the statistical-arbitrage engine.

Pandas series are embedded as `List (Option α)`: one entry per timestamp in
order, `none` standing for a missing value (NaN).  Comparisons against a
missing value are `False`, mirroring IEEE NaN comparisons; elementwise
arithmetic propagates `none`; aggregations (`mean`, `std`, `sum`, `min`,
`cummax`, `cumprod`) skip missing values exactly as the pandas defaults do.
Machine floats are modelled by exact field arithmetic (`ℚ` for executable
instances, `ℝ` where a square root is intrinsic); the scripts use no value
large enough for rounding to change any branch studied here.

The pipelines of `05_backtest_strategy.py` (`backtest`),
`06_optimize_strategy.py` (`run_optimization`),
`07_kalman_filter_backtest.py` (`backtest_kalman_strategy`,
`kalman_filter_hedge_ratio`) and `03_cointegration_finder.py`
(`find_cointegrated_pairs`) are translated statement by statement below.
-/

namespace StatArb

variable {α : Type*} [LinearOrderedField α]

/-- Read a series at timestamp `t`; out-of-range reads are missing values. -/
def idx (xs : List (Option α)) (t : ℕ) : Option α := xs.getD t none

/-- Read `xs.shift(1)` at timestamp `t`: the value one step earlier, missing at `t = 0`. -/
def shiftIdx (xs : List (Option α)) (t : ℕ) : Option α :=
  match t with
  | 0 => none
  | Nat.succ s => idx xs s

/-- Pointwise condition `z ≥ c` of the exit masks; a missing z-score compares as `False`,
as NaN does in pandas. -/
def zGe (c : α) (o : Option α) : Prop :=
  match o with
  | none => False
  | some v => c ≤ v

/-- Pointwise condition `z ≤ c`; missing values compare as `False`. -/
def zLe (c : α) (o : Option α) : Prop :=
  match o with
  | none => False
  | some v => v ≤ c

/-- Pointwise condition `abs(z) < c` of the optimizer's exit mask; missing values
compare as `False`. -/
def zAbsLt (c : α) (o : Option α) : Prop :=
  match o with
  | none => False
  | some v => |v| < c

instance (c : α) (o : Option α) : Decidable (zGe c o) :=
  match o with
  | none => isFalse fun h => h
  | some v => inferInstanceAs (Decidable (c ≤ v))

instance (c : α) (o : Option α) : Decidable (zLe c o) :=
  match o with
  | none => isFalse fun h => h
  | some v => inferInstanceAs (Decidable (v ≤ c))

instance (c : α) (o : Option α) : Decidable (zAbsLt c o) :=
  match o with
  | none => isFalse fun h => h
  | some v => inferInstanceAs (Decidable (|v| < c))

/-- Value written at one timestamp by the two entry-mask assignments
`positions[long_entry] = 1` and `positions[short_entry] = -1` of the backtest
scripts (05 and 07) and of the optimizer (06): the later assignment wins where
both masks could hold, hence the short-entry test comes first here. -/
def entrySignal (E : α) (v : α) : Option α :=
  if E < v then some (-1) else if v < -E then some 1 else none

/-- Series state after the two entry-mask assignments: `1` where `z < -E`,
`-1` where `z > E`, missing elsewhere (`positions` starts as all-NaN). -/
def entryStage (E : α) (z : List (Option α)) : List (Option α) :=
  z.map fun oz => oz.bind (entrySignal E)

/-- Series state after `positions[long_exit & (positions.shift(1) == 1)] = 0`,
where `long_exit = z_score >= -EXIT_THRESHOLD`.  Note that `positions.shift(1)`
here reads the series as it stands after the entry assignments, so the test
`== 1` asks whether the long-entry mask fired at the previous timestamp, not
whether the final (forward-filled) position was long. -/
def longExitStage (E X : α) (z : List (Option α)) : List (Option α) :=
  (List.range z.length).map fun t =>
    if zGe (-X) (idx z t) ∧ shiftIdx (entryStage E z) t = some 1 then some 0
    else idx (entryStage E z) t

/-- Series state after `positions[short_exit & (positions.shift(1) == -1)] = 0`,
where `short_exit = z_score <= EXIT_THRESHOLD`; `positions.shift(1)` reads the
series as mutated by the long-exit assignment. -/
def shortExitStage (E X : α) (z : List (Option α)) : List (Option α) :=
  (List.range z.length).map fun t =>
    if zLe X (idx z t) ∧ shiftIdx (longExitStage E X z) t = some (-1) then some 0
    else idx (longExitStage E X z) t

/-- pandas `ffill()` followed by `fillna(0)`, fused: carry the last defined value
forward, and use the carry `c` (`0` at the top level, matching `fillna(0)`) for
any leading missing values. -/
def ffill0 (c : α) : List (Option α) → List α
  | [] => []
  | x :: xs =>
    match x with
    | some v => v :: ffill0 v xs
    | none => c :: ffill0 c xs

/-- Position series of `backtest` (05) and `backtest_kalman_strategy` (07) as a
function of the z-score series: entry masks, the two state-dependent exit masks,
forward fill, and `fillna(0)`. -/
def positionsBT (E X : α) (z : List (Option α)) : List α :=
  ffill0 0 (shortExitStage E X z)

/-- Series state after the optimizer's single exit assignment
`positions[exit_signal] = 0` with `exit_signal = abs(z_score) < EXIT_THRESHOLD`
(06); unlike the backtest it ignores the previous state entirely. -/
def optExitStage (T X : α) (z : List (Option α)) : List (Option α) :=
  (List.range z.length).map fun t =>
    if zAbsLt X (idx z t) then some 0 else idx (entryStage T z) t

/-- Position series of `run_optimization` (06) as a function of the z-score
series: entry masks with threshold `T`, the unconditional exit mask, forward
fill, and `fillna(0)`. -/
def positionsOpt (T X : α) (z : List (Option α)) : List α :=
  ffill0 0 (optExitStage T X z)

/-- pandas `pct_change()`: simple percentage change, missing at the first
timestamp. -/
def dailyReturns (p : List α) : List (Option α) :=
  (List.range p.length).map fun t =>
    match t with
    | 0 => none
    | Nat.succ s => some (p.getD (s + 1) 0 / p.getD s 0 - 1)

/-- Gross strategy return of 05 and 06:
`positions.shift(1) * (daily_returns[a] - hedge_ratio * daily_returns[b])` with
a static hedge ratio. -/
def portfolioReturnsOLS (h : α) (pa pb pos : List α) : List (Option α) :=
  (List.range pa.length).map fun t =>
    match t with
    | 0 => none
    | Nat.succ s =>
      (idx (dailyReturns pa) (s + 1)).bind fun ra =>
        (idx (dailyReturns pb) (s + 1)).map fun rb =>
          pos.getD s 0 * (ra - h * rb)

/-- Gross strategy return of 07:
`positions.shift(1) * (daily_returns[a] - hedge_ratio.shift(1) * daily_returns[b])`
with a time-varying hedge-ratio series, also read at the previous timestamp. -/
def portfolioReturnsKF (hs : List α) (pa pb pos : List α) : List (Option α) :=
  (List.range pa.length).map fun t =>
    match t with
    | 0 => none
    | Nat.succ s =>
      (idx (dailyReturns pa) (s + 1)).bind fun ra =>
        (idx (dailyReturns pb) (s + 1)).map fun rb =>
          pos.getD s 0 * (ra - hs.getD s 0 * rb)

/-- pandas `positions.diff().abs()`: absolute position change, missing at the
first timestamp. -/
def tradesSeries (pos : List α) : List (Option α) :=
  (List.range pos.length).map fun t =>
    match t with
    | 0 => none
    | Nat.succ s => some |pos.getD (s + 1) 0 - pos.getD s 0|

/-- The per-timestamp transaction cost `trades * COMMISSION`. -/
def transactionCosts (c : α) (pos : List α) : List (Option α) :=
  (tradesSeries pos).map (Option.map fun d => d * c)

/-- Elementwise subtraction of series; missing values propagate. -/
def oSub (a b : Option α) : Option α :=
  a.bind fun x => b.map fun y => x - y

/-- Net strategy return `portfolio_returns - transaction_costs`. -/
def netReturns (port costs : List (Option α)) : List (Option α) :=
  List.zipWith oSub port costs

/-- pandas `cumprod()` with its default `skipna=True`: missing entries stay
missing, the running product `acc` continues past them. -/
def cumprodAux (acc : α) : List (Option α) → List (Option α)
  | [] => []
  | none :: xs => none :: cumprodAux acc xs
  | some v :: xs => some (acc * v) :: cumprodAux (acc * v) xs

/-- Equity curve `(1 + net_portfolio_returns).cumprod()`. -/
def cumulativeReturns (net : List (Option α)) : List (Option α) :=
  cumprodAux 1 (net.map (Option.map fun r => 1 + r))

/-- pandas `cummax()` with `skipna=True`: missing entries stay missing, the
running maximum continues past them and is undefined before the first defined
entry. -/
def cummaxAux (acc : Option α) : List (Option α) → List (Option α)
  | [] => []
  | none :: xs => none :: cummaxAux acc xs
  | some v :: xs =>
    let m := match acc with
      | none => v
      | some a => max a v
    some m :: cummaxAux (some m) xs

/-- Drawdown series `(cumulative_returns - cumulative_max) / cumulative_max`.
The scripts only ever divide by a running maximum that is nonzero on the runs
studied here; field division by zero would yield a junk value, never a fault,
in this embedding as in IEEE floats. -/
def drawdownSeries (eq : List (Option α)) : List (Option α) :=
  List.zipWith (fun a b => a.bind fun e => b.map fun m => (e - m) / m)
    eq (cummaxAux none eq)

/-- pandas `Series.min()` (skipna): minimum of the defined entries, missing for
an all-missing series. -/
def seriesMin (xs : List (Option α)) : Option α := (xs.filterMap id).min?

/-- pandas `Series.sum()` (skipna): sum of the defined entries, `0` for an
all-missing series. -/
def seriesSum (xs : List (Option α)) : α := (xs.filterMap id).sum

/-- pandas `Series.mean()` (skipna): mean of the defined entries, missing when
there are none. -/
def seriesMean (xs : List (Option α)) : Option α :=
  let vs := xs.filterMap id
  if vs.length = 0 then none else some (vs.sum / (vs.length : α))

/-- pandas `Series.var()` with the default `ddof = 1` (skipna): sample variance
of the defined entries, missing when fewer than two are defined. -/
def seriesVar (xs : List (Option α)) : Option α :=
  let vs := xs.filterMap id
  if vs.length < 2 then none
  else some (((vs.map fun v => (v - vs.sum / (vs.length : α)) ^ 2).sum) /
    ((vs.length - 1 : ℕ) : α))

/-- Trailing window `spread[t-W+1 .. t]` of `spread.rolling(window=W)`. -/
def rollingWindow (W : ℕ) (s : List α) (t : ℕ) : List α :=
  (s.take (t + 1)).drop (t + 1 - W)

/-- pandas `rolling(window=W).mean()`: missing until the window is full
(`min_periods` defaults to the window length). -/
def rollingMean (W : ℕ) (s : List α) (t : ℕ) : Option α :=
  if t + 1 < W then none
  else some ((rollingWindow W s t).sum / (W : α))

/-- pandas `rolling(window=W).var()` with `ddof = 1`: sample variance over the
trailing window, missing until the window is full and for `W = 1` (one
observation leaves zero degrees of freedom, NaN in pandas). -/
def rollingVar (W : ℕ) (s : List α) (t : ℕ) : Option α :=
  if t + 1 < W ∨ W ≤ 1 then none
  else some ((((rollingWindow W s t).map fun v =>
    (v - (rollingWindow W s t).sum / (W : α)) ^ 2).sum) / ((W - 1 : ℕ) : α))

/-- pandas `rolling(window=W).std()`: square root of the sample variance. -/
noncomputable def rollingStd (W : ℕ) (s : List ℝ) (t : ℕ) : Option ℝ :=
  (rollingVar W s t).map Real.sqrt

/-- The z-score `(spread - rolling_mean) / rolling_std` at one timestamp.  When
the rolling variance is zero every window entry equals the mean, in particular
the current spread does, so the float quotient is `0.0 / 0.0 = NaN`: that case
is therefore a missing value, as is any timestamp where a rolling statistic is
missing. -/
noncomputable def zScore (W : ℕ) (s : List ℝ) (t : ℕ) : Option ℝ :=
  match rollingMean W s t, rollingVar W s t with
  | some m, some v =>
    if v = 0 then none else some ((s.getD t 0 - m) / Real.sqrt v)
  | _, _ => none

/-- The z-score series over the whole spread. -/
noncomputable def zScoreList (W : ℕ) (s : List ℝ) : List (Option ℝ) :=
  (List.range s.length).map (zScore W s)

/-- Modelled from the spec: the static hedge-ratio estimator is delegated by the
scripts to `statsmodels.api.OLS` (not part of this repository).  Per the spec it
fits `series_a = intercept + ratio * series_b` by ordinary least squares over
the full history and returns the fitted slope, which with an intercept present
is `sum((x-xbar)*(y-ybar)) / sum((x-xbar)^2)`. -/
def olsSlope (ys xs : List α) : α :=
  let ybar := ys.sum / (ys.length : α)
  let xbar := xs.sum / (xs.length : α)
  (List.zipWith (fun y x => (y - ybar) * (x - xbar)) ys xs).sum /
    ((xs.map fun x => (x - xbar) ^ 2).sum)

/-- Modelled from the spec: one step of the recursive state-space (Kalman)
estimator delegated to `pykalman.KalmanFilter.filter` (not part of this
repository).  The latent ratio evolves as a random walk with process-noise
variance `q` and is observed directly with observation-noise variance `r`; the
step predicts (adds `q` to the variance) and then corrects the posterior mean
and variance with the new observation - only information up to and including
the current timestamp is used. -/
def kalmanStep (q r : α) (s : α × α) (y : α) : α × α :=
  let pp := s.2 + q
  let k := pp / (pp + r)
  (s.1 + k * (y - s.1), (1 - k) * pp)

/-- Modelled from the spec: the sequence of posterior means produced by running
the recursive estimator left to right over the observations from a prior
state. -/
def kalmanMeansAux (q r : α) : α × α → List α → List α
  | _, [] => []
  | s, y :: ys =>
    let s2 := kalmanStep q r s y
    s2.1 :: kalmanMeansAux q r s2 ys

/-- Modelled from the spec and the configuration in 07: the dynamic hedge-ratio
series, filtering the observation series `prices_a / prices_b` with prior mean
`0`, prior variance `1`, observation covariance `1` and transition covariance
`0.01`. -/
def kalmanHedgeSeries (pa pb : List α) : List α :=
  kalmanMeansAux (1 / 100) 1 (0, 1) (List.zipWith (fun a b => a / b) pa pb)

/-- The annualized Sharpe ratio of 05, 06 and 07:
`(net.mean() / net.std()) * sqrt(252) if net.std() != 0 else 0`.  A missing
standard deviation (NaN) satisfies the float test `std != 0`, so the computed
quotient, hence the result, is then missing. -/
noncomputable def sharpeOf (net : List (Option ℝ)) : Option ℝ :=
  match seriesMean net, (seriesVar net).map Real.sqrt with
  | some m, some sd => if sd = 0 then some 0 else some (m / sd * Real.sqrt 252)
  | _, _ => none

/-- Summary metrics returned by `backtest` in 05 (`sharpe` is the dict entry
named for the Sharpe ratio, `trades` the value summed into the trade count). -/
structure BacktestResult where
  total_return : Option ℝ
  cagr : Option ℝ
  sharpe : Option ℝ
  max_drawdown : Option ℝ
  trades : ℝ

/-- Spread `prices_a - hedge_ratio * prices_b` of 05 and 06 with the static OLS
hedge ratio. -/
noncomputable def btSpread (pa pb : List ℝ) : List ℝ :=
  List.zipWith (fun a b => a - olsSlope pa pb * b) pa pb

/-- Position series of `backtest` (05), window `W`, entry threshold `E`, exit
threshold `X`. -/
noncomputable def btPositions (W : ℕ) (E X : ℝ) (pa pb : List ℝ) : List ℝ :=
  positionsBT E X (zScoreList W (btSpread pa pb))

/-- Net return series of `backtest` (05) with commission rate `c`. -/
noncomputable def btNet (W : ℕ) (E X c : ℝ) (pa pb : List ℝ) : List (Option ℝ) :=
  netReturns (portfolioReturnsOLS (olsSlope pa pb) pa pb (btPositions W E X pa pb))
    (transactionCosts c (btPositions W E X pa pb))

/-- Equity curve of `backtest` (05). -/
noncomputable def btEquity (W : ℕ) (E X c : ℝ) (pa pb : List ℝ) : List (Option ℝ) :=
  cumulativeReturns (btNet W E X c pa pb)

/-- The `backtest` function of 05.  The module constants are passed explicitly,
as the spec's configuration surface directs (window `W`, entry threshold `E`,
exit threshold `X`, commission rate `c`; the script runs it at `W = 60`,
`E = 2`, `X = 0.5`, `c = 0.001`).  The float test `iloc[-1] <= 0` is `False`
for NaN, so a missing final equity takes the general branch.  After the
`if`/`else` on final equity the script recomputes
`max_drawdown = drawdown.min()` unconditionally, so the `-1.0` stored in the
total-loss branch is a dead store and every branch returns the recomputed
minimum. -/
noncomputable def backtest (pa pb : List ℝ) (W : ℕ) (E X c : ℝ) : BacktestResult :=
  let equity := btEquity W E X c pa pb
  let finalEq := idx equity (pa.length - 1)
  let ddmin := seriesMin (drawdownSeries equity)
  let tcount := seriesSum (tradesSeries (btPositions W E X pa pb))
  match finalEq with
  | none =>
    { total_return := none, cagr := none,
      sharpe := sharpeOf (btNet W E X c pa pb),
      max_drawdown := ddmin, trades := tcount }
  | some e =>
    if e ≤ 0 then
      { total_return := some (-1), cagr := some (-1), sharpe := some 0,
        max_drawdown := ddmin, trades := tcount }
    else
      { total_return := some (e - 1),
        cagr := some (e ^ ((252 : ℝ) / (pa.length : ℝ)) - 1),
        sharpe := sharpeOf (btNet W E X c pa pb),
        max_drawdown := ddmin, trades := tcount }

/-- One cell of the optimizer's result grid (06). -/
structure OptCell where
  window : ℕ
  threshold : ℝ
  sharpe : Option ℝ

/-- Net return series of one grid cell of `run_optimization` (06): same spread,
hedge ratio and return accounting as 05, but the optimizer's own signal rules
(entry threshold `T`, unconditional exit on `abs(z) < X`). -/
noncomputable def optNet (W : ℕ) (T X c : ℝ) (pa pb : List ℝ) : List (Option ℝ) :=
  netReturns
    (portfolioReturnsOLS (olsSlope pa pb) pa pb
      (positionsOpt T X (zScoreList W (btSpread pa pb))))
    (transactionCosts c (positionsOpt T X (zScoreList W (btSpread pa pb))))

/-- The `run_optimization` grid of 06: the OLS hedge ratio is computed once, and
every (window, threshold) combination contributes one cell recording its Sharpe
ratio, in loop order. -/
noncomputable def run_optimization (pa pb : List ℝ) (windows : List ℕ)
    (thresholds : List ℝ) (X c : ℝ) : List OptCell :=
  windows.flatMap fun w => thresholds.map fun T =>
    { window := w, threshold := T, sharpe := sharpeOf (optNet w T X c pa pb) }

/-- One accepted row of the cointegration scan (03). -/
structure CointResult (β : Type*) where
  pair : β × β
  p_value : ℚ
  score : ℚ

/-- The pair enumeration `itertools.combinations(tickers, 2)` of 03: every
unordered pair exactly once, in lexicographic position order. -/
def tickerPairs {β : Type*} : List β → List (β × β)
  | [] => []
  | x :: xs => (xs.map fun y => (x, y)) ++ tickerPairs xs

/-- The `find_cointegrated_pairs` scan of 03, abstracted over the Engle-Granger
test (`statsmodels.coint`, not part of this repository): `test x y` returns
`some (score, p_value)` on success and `none` when the test raises, which the
script catches and skips.  Accepted pairs (`p_value < threshold`) are collected
in enumeration order and sorted ascending by p-value. -/
def find_cointegrated_pairs {β : Type*} (test : β → β → Option (ℚ × ℚ))
    (tickers : List β) (θ : ℚ) : List (CointResult β) :=
  ((tickerPairs tickers).filterMap fun p =>
    (test p.1 p.2).bind fun r =>
      if r.2 < θ then some ⟨p, r.2, r.1⟩ else none).mergeSort
    fun u v => decide (u.p_value ≤ v.p_value)

/-- Spec-side notion used by claim C5: the number of timestamps at which the
position differs from the prior step. -/
def numPositionChanges (pos : List α) : ℕ :=
  ((List.range (pos.length - 1)).filter fun s =>
    decide (pos.getD (s + 1) 0 ≠ pos.getD s 0)).length

/-- Spec-side trade count as 05 computes it: `int(trades.sum())`, the summed
absolute position changes. -/
def tradeCount (pos : List α) : α := seriesSum (tradesSeries pos)

/-! ### Indexing lemmas -/

theorem idx_lt_length {xs : List (Option α)} {t : ℕ} {v : α}
    (h : idx xs t = some v) : t < xs.length := by
  by_contra hlt
  rw [idx, List.getD_eq_getElem?_getD, List.getElem?_eq_none (Nat.le_of_not_lt hlt)]
    at h
  exact Option.noConfusion h

theorem idx_rangeMap {β : Type*} (f : ℕ → Option β) {t n : ℕ} (h : t < n) :
    idx ((List.range n).map f) t = f t := by
  rw [idx, List.getD_eq_getElem?_getD, List.getElem?_map, List.getElem?_range h]
  rfl

theorem idx_rangeMap_ge {β : Type*} (f : ℕ → Option β) {t n : ℕ} (h : n ≤ t) :
    idx ((List.range n).map f) t = none := by
  rw [idx, List.getD_eq_getElem?_getD, List.getElem?_eq_none]
  · rfl
  · simpa using h

theorem idx_entryStage (E : α) (z : List (Option α)) (t : ℕ) :
    idx (entryStage E z) t = (idx z t).bind (entrySignal E) := by
  rw [idx, idx, entryStage, List.getD_eq_getElem?_getD, List.getD_eq_getElem?_getD,
    List.getElem?_map]
  cases z[t]? with
  | none => rfl
  | some o => rfl

theorem length_entryStage (E : α) (z : List (Option α)) :
    (entryStage E z).length = z.length := by
  simp [entryStage]

theorem length_longExitStage (E X : α) (z : List (Option α)) :
    (longExitStage E X z).length = z.length := by
  simp [longExitStage]

theorem length_shortExitStage (E X : α) (z : List (Option α)) :
    (shortExitStage E X z).length = z.length := by
  simp [shortExitStage]

theorem length_optExitStage (T X : α) (z : List (Option α)) :
    (optExitStage T X z).length = z.length := by
  simp [optExitStage]

theorem idx_longExitStage (E X : α) (z : List (Option α)) {t : ℕ} (h : t < z.length) :
    idx (longExitStage E X z) t =
      if zGe (-X) (idx z t) ∧ shiftIdx (entryStage E z) t = some 1 then some 0
      else idx (entryStage E z) t := by
  rw [longExitStage, idx_rangeMap _ h]

theorem idx_shortExitStage (E X : α) (z : List (Option α)) {t : ℕ} (h : t < z.length) :
    idx (shortExitStage E X z) t =
      if zLe X (idx z t) ∧ shiftIdx (longExitStage E X z) t = some (-1) then some 0
      else idx (longExitStage E X z) t := by
  rw [shortExitStage, idx_rangeMap _ h]

theorem idx_optExitStage (T X : α) (z : List (Option α)) {t : ℕ} (h : t < z.length) :
    idx (optExitStage T X z) t =
      if zAbsLt X (idx z t) then some 0 else idx (entryStage T z) t := by
  rw [optExitStage, idx_rangeMap _ h]

/-! ### Forward-fill lemmas -/

theorem ffill0_length (c : α) (xs : List (Option α)) :
    (ffill0 c xs).length = xs.length := by
  induction xs generalizing c with
  | nil => rfl
  | cons x xs ih =>
    cases x with
    | none => simpa [ffill0] using ih c
    | some v => simpa [ffill0] using ih v

theorem ffill0_getD_zero (c : α) (x : Option α) (xs : List (Option α)) :
    (ffill0 c (x :: xs)).getD 0 0 = x.getD c := by
  cases x <;> rfl

theorem ffill0_getD_succ (c : α) (x : Option α) (xs : List (Option α)) (t : ℕ) :
    (ffill0 c (x :: xs)).getD (t + 1) 0 = (ffill0 (x.getD c) xs).getD t 0 := by
  cases x <;> rfl

theorem ffill0_getD_some {xs : List (Option α)} {t : ℕ} {v : α}
    (h : xs.getD t none = some v) (c : α) : (ffill0 c xs).getD t 0 = v := by
  induction xs generalizing c t with
  | nil => simp at h
  | cons x xs ih =>
    cases t with
    | zero =>
      rw [List.getD_cons_zero] at h
      rw [ffill0_getD_zero, h]
      rfl
    | succ s =>
      rw [List.getD_cons_succ] at h
      rw [ffill0_getD_succ]
      exact ih h _

theorem ffill0_getD_none_succ {xs : List (Option α)} {t : ℕ}
    (hlen : t + 1 < xs.length) (h : xs.getD (t + 1) none = none) (c : α) :
    (ffill0 c xs).getD (t + 1) 0 = (ffill0 c xs).getD t 0 := by
  induction xs generalizing c t with
  | nil => simp at hlen
  | cons x xs ih =>
    cases t with
    | zero =>
      rw [List.getD_cons_succ] at h
      rw [ffill0_getD_succ, ffill0_getD_zero]
      cases xs with
      | nil => simp at hlen
      | cons y ys =>
        rw [List.getD_cons_zero] at h
        subst h
        rw [ffill0_getD_zero]
        rfl
    | succ s =>
      rw [List.getD_cons_succ] at h
      rw [ffill0_getD_succ, ffill0_getD_succ]
      exact ih (by simpa using hlen) h _

theorem ffill0_getD_of_none_or_carry {xs : List (Option α)} {t : ℕ} {c : α}
    (hlen : t < xs.length)
    (h : ∀ s, s ≤ t → xs.getD s none = none ∨ xs.getD s none = some c) :
    (ffill0 c xs).getD t 0 = c := by
  induction t with
  | zero =>
    cases xs with
    | nil => simp at hlen
    | cons x xs =>
      rcases h 0 le_rfl with h0 | h0 <;>
        rw [List.getD_cons_zero] at h0 <;> subst h0 <;>
        rw [ffill0_getD_zero] <;> rfl
  | succ s ih =>
    rcases h (s + 1) le_rfl with h1 | h1
    · rw [ffill0_getD_none_succ hlen h1]
      exact ih (Nat.lt_of_succ_lt hlen) fun u hu => h u (Nat.le_succ_of_le hu)
    · exact ffill0_getD_some h1 c

theorem ffill0_mem {xs : List (Option α)} {c x : α}
    (h : x ∈ ffill0 c xs) : x = c ∨ some x ∈ xs := by
  induction xs generalizing c with
  | nil => simp [ffill0] at h
  | cons y ys ih =>
    cases y with
    | none =>
      rcases List.mem_cons.mp h with rfl | h2
      · exact Or.inl rfl
      · rcases ih h2 with h3 | h3
        · exact Or.inl h3
        · exact Or.inr (List.mem_cons_of_mem _ h3)
    | some v =>
      rcases List.mem_cons.mp h with rfl | h2
      · exact Or.inr (List.mem_cons_self _ _)
      · rcases ih h2 with h3 | h3
        · exact Or.inr (by rw [h3]; exact List.mem_cons_self _ _)
        · exact Or.inr (List.mem_cons_of_mem _ h3)

/-! ### Values produced by the mask stages -/

theorem entrySignal_eq_some {E v w : α} (h : entrySignal E v = some w) :
    w = 1 ∨ w = -1 := by
  rw [entrySignal] at h
  by_cases h1 : E < v
  · rw [if_pos h1] at h
    exact Or.inr (Option.some_injective _ h).symm
  · rw [if_neg h1] at h
    by_cases h2 : v < -E
    · rw [if_pos h2] at h
      exact Or.inl (Option.some_injective _ h).symm
    · rw [if_neg h2] at h
      exact Option.noConfusion h

theorem entrySignal_eq_one {E v : α} (hE : 0 ≤ E) (h : v < -E) :
    entrySignal E v = some 1 := by
  rw [entrySignal, if_neg (by nlinarith), if_pos h]

theorem entrySignal_eq_neg_one {E v : α} (h : E < v) :
    entrySignal E v = some (-1) := by
  rw [entrySignal, if_pos h]

theorem entrySignal_eq_none {E v : α} (h1 : ¬ E < v) (h2 : ¬ v < -E) :
    entrySignal E v = none := by
  rw [entrySignal, if_neg h1, if_neg h2]

theorem longExitStage_some {E X : α} {z : List (Option α)} {t : ℕ} {v : α}
    (h : idx (longExitStage E X z) t = some v) : v = 0 ∨ v = 1 ∨ v = -1 := by
  have ht : t < z.length := by
    have := idx_lt_length h
    rwa [length_longExitStage] at this
  rw [idx_longExitStage E X z ht] at h
  by_cases hc : zGe (-X) (idx z t) ∧ shiftIdx (entryStage E z) t = some 1
  · rw [if_pos hc] at h
    exact Or.inl (Option.some_injective _ h).symm
  · rw [if_neg hc, idx_entryStage] at h
    rcases Option.bind_eq_some.mp h with ⟨w, _, hw⟩
    rcases entrySignal_eq_some hw with h1 | h1
    · exact Or.inr (Or.inl h1)
    · exact Or.inr (Or.inr h1)

theorem shortExitStage_some {E X : α} {z : List (Option α)} {t : ℕ} {v : α}
    (h : idx (shortExitStage E X z) t = some v) : v = 0 ∨ v = 1 ∨ v = -1 := by
  have ht : t < z.length := by
    have := idx_lt_length h
    rwa [length_shortExitStage] at this
  rw [idx_shortExitStage E X z ht] at h
  by_cases hc : zLe X (idx z t) ∧ shiftIdx (longExitStage E X z) t = some (-1)
  · rw [if_pos hc] at h
    exact Or.inl (Option.some_injective _ h).symm
  · rw [if_neg hc] at h
    exact longExitStage_some h

theorem optExitStage_some {T X : α} {z : List (Option α)} {t : ℕ} {v : α}
    (h : idx (optExitStage T X z) t = some v) : v = 0 ∨ v = 1 ∨ v = -1 := by
  have ht : t < z.length := by
    have := idx_lt_length h
    rwa [length_optExitStage] at this
  rw [idx_optExitStage T X z ht] at h
  by_cases hc : zAbsLt X (idx z t)
  · rw [if_pos hc] at h
    exact Or.inl (Option.some_injective _ h).symm
  · rw [if_neg hc, idx_entryStage] at h
    rcases Option.bind_eq_some.mp h with ⟨w, _, hw⟩
    rcases entrySignal_eq_some hw with h1 | h1
    · exact Or.inr (Or.inl h1)
    · exact Or.inr (Or.inr h1)

theorem shortExitStage_none_of_no_entry {E X : α} {z : List (Option α)} {t : ℕ}
    (hlen : t < z.length)
    (h : ∀ s, s ≤ t → (idx z s).bind (entrySignal E) = none) :
    idx (shortExitStage E X z) t = none := by
  have hlong : ∀ s, s ≤ t → idx (longExitStage E X z) s = none := by
    intro s hs
    rw [idx_longExitStage E X z (lt_of_le_of_lt hs hlen)]
    have hcond : ¬ (zGe (-X) (idx z s) ∧ shiftIdx (entryStage E z) s = some 1) := by
      rintro ⟨-, h2⟩
      cases s with
      | zero => exact Option.noConfusion h2
      | succ u =>
        rw [shiftIdx, idx_entryStage, h u (le_trans (Nat.le_succ u) hs)] at h2
        exact Option.noConfusion h2
    rw [if_neg hcond, idx_entryStage]
    exact h s hs
  rw [idx_shortExitStage E X z hlen]
  have hcond : ¬ (zLe X (idx z t) ∧ shiftIdx (longExitStage E X z) t = some (-1)) := by
    rintro ⟨-, h2⟩
    cases t with
    | zero => exact Option.noConfusion h2
    | succ u =>
      rw [shiftIdx, hlong u (Nat.le_succ u)] at h2
      exact Option.noConfusion h2
  rw [if_neg hcond]
  exact hlong t le_rfl

/-! ### Claim C1 -/

/-- C1, counterexample.  With the default thresholds (entry 2, exit 0.5) and
z-scores `-3, -1, 0`, the strategy is long at timestamp 1 (forward-filled from
the entry at timestamp 0), the z-score at timestamp 2 is `0 ≥ -0.5`, and no
entry condition holds there - yet the position stays long at timestamp 2
instead of going flat, because the exit mask tests the raw entry mask of the
previous timestamp (`positions.shift(1) == 1` before forward-fill), which did
not fire at timestamp 1. -/
theorem claim1_counterexample :
    (positionsBT (2 : ℚ) (1 / 2) [some (-3), some (-1), some 0]).getD 1 0 = 1 ∧
    zGe (-(1 / 2)) (idx [some (-3), some (-1), some (0 : ℚ)] 2) ∧
    (idx [some (-3), some (-1), some (0 : ℚ)] 2).bind (entrySignal 2) = none ∧
    ¬ (positionsBT (2 : ℚ) (1 / 2) [some (-3), some (-1), some 0]).getD 2 0 = 0 := by
  have h1 : entryStage (2 : ℚ) [some (-3), some (-1), some 0] = [some 1, none, none] := by
    norm_num [entryStage, entrySignal]
  have h2 : longExitStage (2 : ℚ) (1 / 2) [some (-3), some (-1), some 0] =
      [some 1, none, none] := by
    norm_num [longExitStage, h1, idx, shiftIdx, zGe, List.range_succ, List.range_zero,
      List.getD_cons_zero, List.getD_cons_succ]
    simp
  have h3 : shortExitStage (2 : ℚ) (1 / 2) [some (-3), some (-1), some 0] =
      [some 1, none, none] := by
    norm_num [shortExitStage, h2, idx, shiftIdx, zLe, List.range_succ, List.range_zero,
      List.getD_cons_zero, List.getD_cons_succ]
    simp
  have h4 : positionsBT (2 : ℚ) (1 / 2) [some (-3), some (-1), some 0] = [1, 1, 1] := by
    rw [positionsBT, h3]
    norm_num [ffill0]
  refine ⟨by rw [h4]; rfl, by norm_num [zGe, idx], by norm_num [idx, entrySignal],
    by rw [h4]; norm_num⟩

/-- C1, amended: from `Long` the position goes `Flat` at `t` when the z-score at
`t` is at least `-exit_threshold` and no entry condition holds at `t`,
**provided the long-entry condition fired exactly at `t - 1`** (the source's
exit mask reads the raw entry mask, not the forward-filled state, at `t - 1`);
when no entry mask fires at `t - 1` or `t` the position is carried forward
unchanged; and the state never moves from `Long` to `Short` without the short
entry condition `ZScore(t) > entry_threshold` holding at `t`, nor from `Short`
to `Long` without the long entry condition `ZScore(t) < -entry_threshold`
holding at `t`. -/
theorem claim1_amended (E X : α) (z : List (Option α)) (hE : 0 ≤ E) :
    (∀ t v w, idx z t = some v → v < -E →
      idx z (t + 1) = some w → -X ≤ w → ¬ w < -E → ¬ E < w →
      (positionsBT E X z).getD (t + 1) 0 = 0) ∧
    (∀ t, t + 1 < z.length →
      idx (entryStage E z) t = none → idx (entryStage E z) (t + 1) = none →
      (positionsBT E X z).getD (t + 1) 0 = (positionsBT E X z).getD t 0) ∧
    (∀ t, (positionsBT E X z).getD t 0 = 1 →
      (positionsBT E X z).getD (t + 1) 0 = -1 →
      ∃ w, idx z (t + 1) = some w ∧ E < w) ∧
    (∀ t, (positionsBT E X z).getD t 0 = -1 →
      (positionsBT E X z).getD (t + 1) 0 = 1 →
      ∃ w, idx z (t + 1) = some w ∧ w < -E) := by
  refine ⟨?_, ?_, ?_, ?_⟩
  · intro t v w hv hvE hw hwX hwE1 hwE2
    have hlen : t + 1 < z.length := idx_lt_length hw
    have ha_t : idx (entryStage E z) t = some 1 := by
      rw [idx_entryStage, hv, Option.some_bind]
      exact entrySignal_eq_one hE hvE
    have hb : idx (longExitStage E X z) (t + 1) = some 0 := by
      rw [idx_longExitStage E X z hlen, if_pos]
      constructor
      · rw [hw]
        exact hwX
      · rw [shiftIdx]
        exact ha_t
    have hc : idx (shortExitStage E X z) (t + 1) = some 0 := by
      rw [idx_shortExitStage E X z hlen]
      by_cases hcond : zLe X (idx z (t + 1)) ∧
          shiftIdx (longExitStage E X z) (t + 1) = some (-1)
      · rw [if_pos hcond]
      · rw [if_neg hcond]
        exact hb
    exact ffill0_getD_some hc 0
  · intro t hlen ha_t ha_t1
    have hb : idx (longExitStage E X z) (t + 1) = none := by
      rw [idx_longExitStage E X z hlen, if_neg, ha_t1]
      rintro ⟨-, h2⟩
      rw [shiftIdx, ha_t] at h2
      exact Option.noConfusion h2
    have hc : idx (shortExitStage E X z) (t + 1) = none := by
      rw [idx_shortExitStage E X z hlen, if_neg, hb]
      rintro ⟨-, h2⟩
      rw [shiftIdx, idx_longExitStage E X z (Nat.lt_of_succ_lt hlen)] at h2
      by_cases hcond : zGe (-X) (idx z t) ∧ shiftIdx (entryStage E z) t = some 1
      · rw [if_pos hcond] at h2
        have : (0 : α) = -1 := Option.some_injective _ h2
        norm_num at this
      · rw [if_neg hcond, ha_t] at h2
        exact Option.noConfusion h2
    have hlen2 : t + 1 < (shortExitStage E X z).length := by
      rwa [length_shortExitStage]
    exact ffill0_getD_none_succ hlen2 hc 0
  · intro t hpos1 hpos2
    cases hraw : idx (shortExitStage E X z) (t + 1) with
    | none =>
      have hlen : t + 1 < (shortExitStage E X z).length := by
        rw [length_shortExitStage]
        by_contra hge
        have h0 : (positionsBT E X z).getD (t + 1) 0 = 0 := by
          apply List.getD_eq_default
          rw [positionsBT, ffill0_length, length_shortExitStage]
          exact Nat.le_of_not_lt hge
        rw [h0] at hpos2
        norm_num at hpos2
      have := ffill0_getD_none_succ hlen hraw (0 : α)
      rw [positionsBT] at hpos1 hpos2
      rw [this, hpos1] at hpos2
      norm_num at hpos2
    | some v =>
      have hv : v = -1 := by
        have := ffill0_getD_some hraw (0 : α)
        rw [positionsBT] at hpos2
        rw [this] at hpos2
        exact hpos2
      subst hv
      have hlen : t + 1 < z.length := by
        have := idx_lt_length hraw
        rwa [length_shortExitStage] at this
      rw [idx_shortExitStage E X z hlen] at hraw
      by_cases hcond : zLe X (idx z (t + 1)) ∧
          shiftIdx (longExitStage E X z) (t + 1) = some (-1)
      · rw [if_pos hcond] at hraw
        have : (0 : α) = -1 := Option.some_injective _ hraw
        norm_num at this
      · rw [if_neg hcond, idx_longExitStage E X z hlen] at hraw
        by_cases hcond2 : zGe (-X) (idx z (t + 1)) ∧
            shiftIdx (entryStage E z) (t + 1) = some 1
        · rw [if_pos hcond2] at hraw
          have : (0 : α) = -1 := Option.some_injective _ hraw
          norm_num at this
        · rw [if_neg hcond2, idx_entryStage] at hraw
          rcases Option.bind_eq_some.mp hraw with ⟨w, hw, hsig⟩
          refine ⟨w, hw, ?_⟩
          rw [entrySignal] at hsig
          by_cases hEw : E < w
          · exact hEw
          · rw [if_neg hEw] at hsig
            by_cases hwE : w < -E
            · rw [if_pos hwE] at hsig
              have : (1 : α) = -1 := Option.some_injective _ hsig
              norm_num at this
            · rw [if_neg hwE] at hsig
              exact Option.noConfusion hsig
  · intro t hpos1 hpos2
    cases hraw : idx (shortExitStage E X z) (t + 1) with
    | none =>
      have hlen : t + 1 < (shortExitStage E X z).length := by
        rw [length_shortExitStage]
        by_contra hge
        have h0 : (positionsBT E X z).getD (t + 1) 0 = 0 := by
          apply List.getD_eq_default
          rw [positionsBT, ffill0_length, length_shortExitStage]
          exact Nat.le_of_not_lt hge
        rw [h0] at hpos2
        norm_num at hpos2
      have := ffill0_getD_none_succ hlen hraw (0 : α)
      rw [positionsBT] at hpos1 hpos2
      rw [this, hpos1] at hpos2
      norm_num at hpos2
    | some v =>
      have hv : v = 1 := by
        have := ffill0_getD_some hraw (0 : α)
        rw [positionsBT] at hpos2
        rw [this] at hpos2
        exact hpos2
      subst hv
      have hlen : t + 1 < z.length := by
        have := idx_lt_length hraw
        rwa [length_shortExitStage] at this
      rw [idx_shortExitStage E X z hlen] at hraw
      by_cases hcond : zLe X (idx z (t + 1)) ∧
          shiftIdx (longExitStage E X z) (t + 1) = some (-1)
      · rw [if_pos hcond] at hraw
        have : (0 : α) = 1 := Option.some_injective _ hraw
        norm_num at this
      · rw [if_neg hcond, idx_longExitStage E X z hlen] at hraw
        by_cases hcond2 : zGe (-X) (idx z (t + 1)) ∧
            shiftIdx (entryStage E z) (t + 1) = some 1
        · rw [if_pos hcond2] at hraw
          have : (0 : α) = 1 := Option.some_injective _ hraw
          norm_num at this
        · rw [if_neg hcond2, idx_entryStage] at hraw
          rcases Option.bind_eq_some.mp hraw with ⟨w, hw, hsig⟩
          refine ⟨w, hw, ?_⟩
          rw [entrySignal] at hsig
          by_cases hEw : E < w
          · rw [if_pos hEw] at hsig
            have : (-1 : α) = 1 := Option.some_injective _ hsig
            norm_num at this
          · rw [if_neg hEw] at hsig
            by_cases hwE : w < -E
            · exact hwE
            · rw [if_neg hwE] at hsig
              exact Option.noConfusion hsig

/-- C1, witness for the amended claim: with entry threshold 2 and exit
threshold 0.5, z-scores `-3, 0` enter long at timestamp 0 and exit flat at
timestamp 1. -/
theorem claim1_witness :
    (positionsBT (2 : ℚ) (1 / 2) [some (-3), some 0]).getD 1 0 = 0 :=
  (claim1_amended (2 : ℚ) (1 / 2) [some (-3), some 0] (by norm_num)).1
    0 (-3) 0 rfl (by norm_num) rfl (by norm_num) (by norm_num) (by norm_num)

/-! ### Claim C10 -/

/-- C10: over any z-score series the produced position series is total and
three-valued - it has one value per input timestamp, each of which is `1`,
`-1` or `0` - and every timestamp up to which no entry mask has ever fired (in
particular the whole warm-up region, where the z-score is undefined and every
mask compares false) carries `0`.  Shown for the backtest pipeline of 05/07
and for the optimizer pipeline of 06. -/
theorem claim10_total (E X T : α) (z : List (Option α)) :
    ((positionsBT E X z).length = z.length ∧
      (positionsOpt T X z).length = z.length) ∧
    (∀ t, t < z.length →
      ((positionsBT E X z).getD t 0 = 1 ∨ (positionsBT E X z).getD t 0 = -1 ∨
        (positionsBT E X z).getD t 0 = 0) ∧
      ((positionsOpt T X z).getD t 0 = 1 ∨ (positionsOpt T X z).getD t 0 = -1 ∨
        (positionsOpt T X z).getD t 0 = 0)) ∧
    (∀ t, t < z.length →
      (∀ s, s ≤ t → (idx z s).bind (entrySignal E) = none) →
      (positionsBT E X z).getD t 0 = 0) ∧
    (∀ t, t < z.length →
      (∀ s, s ≤ t → (idx z s).bind (entrySignal T) = none) →
      (positionsOpt T X z).getD t 0 = 0) := by
  refine ⟨⟨?_, ?_⟩, ?_, ?_, ?_⟩
  · rw [positionsBT, ffill0_length, length_shortExitStage]
  · rw [positionsOpt, ffill0_length, length_optExitStage]
  · intro t ht
    constructor
    · have htb : t < (positionsBT E X z).length := by
        rwa [positionsBT, ffill0_length, length_shortExitStage]
      have hmem : (positionsBT E X z).getD t 0 ∈ positionsBT E X z := by
        rw [List.getD_eq_getElem?_getD, List.getElem?_eq_getElem htb]
        exact List.getElem_mem htb
      rcases ffill0_mem hmem with h0 | hsome
      · exact Or.inr (Or.inr h0)
      · rcases List.mem_iff_getElem?.mp hsome with ⟨i, hi⟩
        have hidx : idx (shortExitStage E X z) i = some ((positionsBT E X z).getD t 0) := by
          rw [idx, List.getD_eq_getElem?_getD, hi]
          rfl
        rcases shortExitStage_some hidx with h | h | h
        · exact Or.inr (Or.inr h)
        · exact Or.inl h
        · exact Or.inr (Or.inl h)
    · have htb : t < (positionsOpt T X z).length := by
        rwa [positionsOpt, ffill0_length, length_optExitStage]
      have hmem : (positionsOpt T X z).getD t 0 ∈ positionsOpt T X z := by
        rw [List.getD_eq_getElem?_getD, List.getElem?_eq_getElem htb]
        exact List.getElem_mem htb
      rcases ffill0_mem hmem with h0 | hsome
      · exact Or.inr (Or.inr h0)
      · rcases List.mem_iff_getElem?.mp hsome with ⟨i, hi⟩
        have hidx : idx (optExitStage T X z) i = some ((positionsOpt T X z).getD t 0) := by
          rw [idx, List.getD_eq_getElem?_getD, hi]
          rfl
        rcases optExitStage_some hidx with h | h | h
        · exact Or.inr (Or.inr h)
        · exact Or.inl h
        · exact Or.inr (Or.inl h)
  · intro t ht hnone
    apply ffill0_getD_of_none_or_carry
    · rwa [length_shortExitStage]
    · intro s hs
      exact Or.inl (shortExitStage_none_of_no_entry (lt_of_le_of_lt hs ht) fun u hu =>
        hnone u (le_trans hu hs))
  · intro t ht hnone
    apply ffill0_getD_of_none_or_carry
    · rwa [length_optExitStage]
    · intro s hs
      show idx (optExitStage T X z) s = none ∨ idx (optExitStage T X z) s = some 0
      rw [idx_optExitStage T X z (lt_of_le_of_lt hs ht)]
      by_cases hc : zAbsLt X (idx z s)
      · rw [if_pos hc]
        exact Or.inr rfl
      · rw [if_neg hc, idx_entryStage]
        exact Or.inl (hnone s hs)

/-- C10, witness: with entry threshold 2 on both pipelines and the z-score
series `NaN, 1`, no entry mask fires through timestamp 1 and the backtest
position there is flat. -/
theorem claim10_witness :
    (positionsBT (2 : ℚ) (1 / 2) [none, some 1]).getD 1 0 = 0 :=
  (claim10_total (2 : ℚ) (1 / 2) 2 [none, some 1]).2.2.1 1 (by decide)
    (fun s hs => by interval_cases s <;> decide)

/-! ### Return-accounting lemmas -/

theorem idx_dailyReturns {p : List α} {s : ℕ} (h : s + 1 < p.length) :
    idx (dailyReturns p) (s + 1) = some (p.getD (s + 1) 0 / p.getD s 0 - 1) := by
  rw [dailyReturns, idx_rangeMap _ h]

theorem idx_portfolioReturnsOLS {pa pb pos : List α} (h : α) {s : ℕ}
    (ha : s + 1 < pa.length) (hb : s + 1 < pb.length) :
    idx (portfolioReturnsOLS h pa pb pos) (s + 1) =
      some (pos.getD s 0 * ((pa.getD (s + 1) 0 / pa.getD s 0 - 1) -
        h * (pb.getD (s + 1) 0 / pb.getD s 0 - 1))) := by
  rw [portfolioReturnsOLS, idx_rangeMap _ ha]
  show ((idx (dailyReturns pa) (s + 1)).bind fun ra =>
    (idx (dailyReturns pb) (s + 1)).map fun rb => pos.getD s 0 * (ra - h * rb)) = _
  rw [idx_dailyReturns ha, idx_dailyReturns hb]
  rfl

theorem idx_portfolioReturnsKF {pa pb pos : List α} (hs : List α) {s : ℕ}
    (ha : s + 1 < pa.length) (hb : s + 1 < pb.length) :
    idx (portfolioReturnsKF hs pa pb pos) (s + 1) =
      some (pos.getD s 0 * ((pa.getD (s + 1) 0 / pa.getD s 0 - 1) -
        hs.getD s 0 * (pb.getD (s + 1) 0 / pb.getD s 0 - 1))) := by
  rw [portfolioReturnsKF, idx_rangeMap _ ha]
  show ((idx (dailyReturns pa) (s + 1)).bind fun ra =>
    (idx (dailyReturns pb) (s + 1)).map fun rb =>
      pos.getD s 0 * (ra - hs.getD s 0 * rb)) = _
  rw [idx_dailyReturns ha, idx_dailyReturns hb]
  rfl

theorem idx_tradesSeries {pos : List α} {s : ℕ} (h : s + 1 < pos.length) :
    idx (tradesSeries pos) (s + 1) = some |pos.getD (s + 1) 0 - pos.getD s 0| := by
  rw [tradesSeries, idx_rangeMap _ h]

theorem idx_tradesSeries_zero (pos : List α) : idx (tradesSeries pos) 0 = none := by
  by_cases h : 0 < pos.length
  · rw [tradesSeries, idx_rangeMap _ h]
  · rw [tradesSeries, idx_rangeMap_ge _ (Nat.le_of_not_lt h)]

theorem length_tradesSeries (pos : List α) : (tradesSeries pos).length = pos.length := by
  simp [tradesSeries]

theorem length_transactionCosts (c : α) (pos : List α) :
    (transactionCosts c pos).length = pos.length := by
  simp [transactionCosts, length_tradesSeries]

theorem length_portfolioReturnsOLS (h : α) (pa pb pos : List α) :
    (portfolioReturnsOLS h pa pb pos).length = pa.length := by
  simp [portfolioReturnsOLS]

theorem idx_transactionCosts (c : α) (pos : List α) (t : ℕ) :
    idx (transactionCosts c pos) t = (idx (tradesSeries pos) t).map fun d => d * c := by
  rw [transactionCosts, idx, idx, List.getD_eq_getElem?_getD, List.getD_eq_getElem?_getD,
    List.getElem?_map]
  cases (tradesSeries pos)[t]? with
  | none => rfl
  | some o => rfl

theorem filterMap_succMatch_range {β : Type*} (g : ℕ → β) (n : ℕ) :
    List.filterMap (fun t => match t with
      | 0 => (none : Option β)
      | Nat.succ s => some (g s)) (List.range (n + 1)) = (List.range n).map g := by
  rw [List.range_succ_eq_map, List.filterMap_cons]
  show List.filterMap _ (List.map Nat.succ (List.range n)) = _
  rw [List.filterMap_map]
  show List.filterMap (some ∘ g) (List.range n) = _
  rw [List.filterMap_eq_map]

theorem idx_netReturns {port costs : List (Option α)} {t : ℕ}
    (hp : t < port.length) (hc : t < costs.length) :
    idx (netReturns port costs) t = oSub (idx port t) (idx costs t) := by
  rw [netReturns, idx, idx, idx, List.getD_eq_getElem?_getD, List.getD_eq_getElem?_getD,
    List.getD_eq_getElem?_getD, List.getElem?_zipWith, List.getElem?_eq_getElem hp,
    List.getElem?_eq_getElem hc]
  rfl

/-! ### Claim C4 -/

/-- C4: the gross strategy return at each timestamp `t = s + 1` is the position
decided at `s = t - 1` times `return_a(t) - h * return_b(t)`, with `h` the
static hedge ratio in 05/06 and the hedge-ratio value at `t - 1` in 07; daily
returns are simple percentage changes, and no position or hedge-ratio value
from `t` or later enters the formula.  At `t = 0` the gross return is a
missing value. -/
theorem claim4_gross_return (h : α) (hs pa pb pos : List α) (s : ℕ)
    (ha : s + 1 < pa.length) (hb : s + 1 < pb.length) :
    idx (portfolioReturnsOLS h pa pb pos) (s + 1) =
      some (pos.getD s 0 * ((pa.getD (s + 1) 0 / pa.getD s 0 - 1) -
        h * (pb.getD (s + 1) 0 / pb.getD s 0 - 1))) ∧
    idx (portfolioReturnsKF hs pa pb pos) (s + 1) =
      some (pos.getD s 0 * ((pa.getD (s + 1) 0 / pa.getD s 0 - 1) -
        hs.getD s 0 * (pb.getD (s + 1) 0 / pb.getD s 0 - 1))) ∧
    idx (portfolioReturnsOLS h pa pb pos) 0 = none ∧
    idx (portfolioReturnsKF hs pa pb pos) 0 = none := by
  refine ⟨idx_portfolioReturnsOLS h ha hb, idx_portfolioReturnsKF hs ha hb, ?_, ?_⟩
  · by_cases h0 : 0 < pa.length
    · rw [portfolioReturnsOLS, idx_rangeMap _ h0]
    · rw [portfolioReturnsOLS, idx_rangeMap_ge _ (Nat.le_of_not_lt h0)]
  · by_cases h0 : 0 < pa.length
    · rw [portfolioReturnsKF, idx_rangeMap _ h0]
    · rw [portfolioReturnsKF, idx_rangeMap_ge _ (Nat.le_of_not_lt h0)]

/-- C4, witness at a concrete input: prices `a = [1, 2]`, `b = [1, 3]`,
position `1` decided at timestamp 0, static hedge ratio `2`, dynamic series
`[5, 7]`. -/
theorem claim4_witness :
    idx (portfolioReturnsOLS (2 : ℚ) [1, 2] [1, 3] [1, 0]) 1 =
      some (([1, 0] : List ℚ).getD 0 0 *
        ((([1, 2] : List ℚ).getD 1 0 / ([1, 2] : List ℚ).getD 0 0 - 1) -
          2 * (([1, 3] : List ℚ).getD 1 0 / ([1, 3] : List ℚ).getD 0 0 - 1))) ∧
    idx (portfolioReturnsKF ([5, 7] : List ℚ) [1, 2] [1, 3] [1, 0]) 1 =
      some (([1, 0] : List ℚ).getD 0 0 *
        ((([1, 2] : List ℚ).getD 1 0 / ([1, 2] : List ℚ).getD 0 0 - 1) -
          ([5, 7] : List ℚ).getD 0 0 * (([1, 3] : List ℚ).getD 1 0 / ([1, 3] : List ℚ).getD 0 0 - 1))) := by
  have h := claim4_gross_return (2 : ℚ) [5, 7] [1, 2] [1, 3] [1, 0] 0
    (by norm_num) (by norm_num)
  exact ⟨h.1, h.2.1⟩

/-! ### Claim C5 -/

/-- C5, counterexample.  For the position sequence `0, 1, -1` (reachable by a
long entry followed by a direct flip to short) there are two timestamps at
which the position differs from the prior step, but the reported trade count
`int(trades.sum())` is `3`: the flip `1 → -1` contributes `|Δposition| = 2`.
So the trade count does not equal the number of position changes. -/
theorem claim5_counterexample :
    tradeCount ([0, 1, -1] : List ℚ) = 3 ∧
    numPositionChanges ([0, 1, -1] : List ℚ) = 2 ∧
    tradeCount ([0, 1, -1] : List ℚ) ≠ (numPositionChanges ([0, 1, -1] : List ℚ) : ℚ) := by
  have h1 : tradeCount ([0, 1, -1] : List ℚ) = 3 := by
    norm_num [tradeCount, seriesSum, tradesSeries, List.range_succ, List.range_zero,
      List.filterMap]
  have h2 : numPositionChanges ([0, 1, -1] : List ℚ) = 2 := by
    norm_num [numPositionChanges, List.range_succ, List.range_zero, List.filter]
  refine ⟨h1, h2, ?_⟩
  rw [h1, h2]
  norm_num

/-- C5, amended: a trade is recorded at exactly the timestamps where the
position differs from the prior step (never at timestamp 0, which has no prior
step); the transaction cost there is `commission_rate * |Δposition|` and is
subtracted from the gross return; and the reported trade count is the **sum of
`|Δposition|`** over the series - a direct Long/Short flip contributes `2`, so
the trade count can exceed the number of position-change timestamps. -/
theorem claim5_amended (c : α) (pos : List α) :
    (∀ s, s + 1 < pos.length →
      idx (tradesSeries pos) (s + 1) = some |pos.getD (s + 1) 0 - pos.getD s 0| ∧
      (0 < |pos.getD (s + 1) 0 - pos.getD s 0| ↔ pos.getD (s + 1) 0 ≠ pos.getD s 0)) ∧
    idx (tradesSeries pos) 0 = none ∧
    (∀ (h : α) (pa pb : List α) (s : ℕ) (g : α), pb.length = pa.length →
      pos.length = pa.length → s + 1 < pa.length →
      idx (portfolioReturnsOLS h pa pb pos) (s + 1) = some g →
      idx (netReturns (portfolioReturnsOLS h pa pb pos) (transactionCosts c pos)) (s + 1) =
        some (g - |pos.getD (s + 1) 0 - pos.getD s 0| * c)) ∧
    tradeCount pos =
      ((List.range (pos.length - 1)).map fun s =>
        |pos.getD (s + 1) 0 - pos.getD s 0|).sum := by
  refine ⟨?_, idx_tradesSeries_zero pos, ?_, ?_⟩
  · intro s hlen
    exact ⟨idx_tradesSeries hlen, abs_pos.trans sub_ne_zero⟩
  · intro h pa pb s g hb hpos hlen hport
    have hlenpos : s + 1 < pos.length := by rwa [hpos]
    have hnet : idx (netReturns (portfolioReturnsOLS h pa pb pos)
        (transactionCosts c pos)) (s + 1) =
        oSub (idx (portfolioReturnsOLS h pa pb pos) (s + 1))
          (idx (transactionCosts c pos) (s + 1)) := by
      apply idx_netReturns
      · rwa [length_portfolioReturnsOLS]
      · rwa [length_transactionCosts, hpos]
    rw [hnet, hport, idx_transactionCosts, idx_tradesSeries hlenpos]
    rfl
  · rw [tradeCount, seriesSum, tradesSeries, List.filterMap_map]
    show (List.filterMap (fun t => match t with
      | 0 => (none : Option α)
      | Nat.succ s => some |pos.getD (s + 1) 0 - pos.getD s 0|)
      (List.range pos.length)).sum = _
    cases pos with
    | nil => rfl
    | cons p ps =>
      rw [List.length_cons, filterMap_succMatch_range, Nat.add_sub_cancel]

/-- C5, witness for the amended claim at the counterexample's position
sequence: the trade series is missing at 0 and records `1` and `2`, and the
trade count is their sum. -/
theorem claim5_witness :
    idx (tradesSeries ([0, 1, -1] : List ℚ)) 1 = some |(1 : ℚ) - 0| ∧
    idx (tradesSeries ([0, 1, -1] : List ℚ)) 0 = none := by
  have h := claim5_amended (1 / 1000 : ℚ) [0, 1, -1]
  exact ⟨(h.1 0 (by norm_num)).1, h.2.1⟩

/-! ### Claim C7 -/

/-- C7: for fixed prices, hedge ratio and position sequence, the net return
computed with commission rate `0.002` is at most the one computed with
commission rate `0.001` at every timestamp where a trade occurs (equal only if
the recorded trade size is zero), and the two net return series agree exactly
at every timestamp where no trade is recorded. -/
theorem claim7_commission (h : α) (pa pb pos : List α)
    (hb : pb.length = pa.length) (hpos : pos.length = pa.length) (t : ℕ) :
    (∀ d, idx (tradesSeries pos) t = some d →
      ∃ x y,
        idx (netReturns (portfolioReturnsOLS h pa pb pos)
          (transactionCosts (2 / 1000) pos)) t = some x ∧
        idx (netReturns (portfolioReturnsOLS h pa pb pos)
          (transactionCosts (1 / 1000) pos)) t = some y ∧
        x ≤ y ∧ (d = 0 → x = y) ∧ (0 < d → x < y)) ∧
    (idx (tradesSeries pos) t = none →
      idx (netReturns (portfolioReturnsOLS h pa pb pos)
        (transactionCosts (2 / 1000) pos)) t =
      idx (netReturns (portfolioReturnsOLS h pa pb pos)
        (transactionCosts (1 / 1000) pos)) t) := by
  constructor
  · intro d hd
    cases t with
    | zero =>
      rw [idx_tradesSeries_zero] at hd
      exact Option.noConfusion hd
    | succ s =>
      have hlenpos : s + 1 < pos.length := by
        have := idx_lt_length hd
        rwa [length_tradesSeries] at this
      have hlenpa : s + 1 < pa.length := by rwa [hpos] at hlenpos
      have hlenpb : s + 1 < pb.length := by rwa [hb]
      have hport := @idx_portfolioReturnsOLS _ _ pa pb pos h s hlenpa hlenpb
      have hnet : ∀ c : α, idx (netReturns (portfolioReturnsOLS h pa pb pos)
          (transactionCosts c pos)) (s + 1) =
          oSub (idx (portfolioReturnsOLS h pa pb pos) (s + 1))
            (idx (transactionCosts c pos) (s + 1)) := by
        intro c
        apply idx_netReturns
        · rwa [length_portfolioReturnsOLS]
        · rwa [length_transactionCosts, hpos]
      have hdval : d = |pos.getD (s + 1) 0 - pos.getD s 0| := by
        rw [idx_tradesSeries hlenpos] at hd
        exact (Option.some_injective _ hd).symm
      refine ⟨pos.getD s 0 * ((pa.getD (s + 1) 0 / pa.getD s 0 - 1) -
          h * (pb.getD (s + 1) 0 / pb.getD s 0 - 1)) -
          |pos.getD (s + 1) 0 - pos.getD s 0| * (2 / 1000),
        pos.getD s 0 * ((pa.getD (s + 1) 0 / pa.getD s 0 - 1) -
          h * (pb.getD (s + 1) 0 / pb.getD s 0 - 1)) -
          |pos.getD (s + 1) 0 - pos.getD s 0| * (1 / 1000), ?_, ?_, ?_, ?_, ?_⟩
      · rw [hnet, hport, idx_transactionCosts, idx_tradesSeries hlenpos]
        rfl
      · rw [hnet, hport, idx_transactionCosts, idx_tradesSeries hlenpos]
        rfl
      · have habs : (0 : α) ≤ |pos.getD (s + 1) 0 - pos.getD s 0| := abs_nonneg _
        nlinarith
      · intro hd0
        rw [hdval] at hd0
        rw [hd0]
        ring
      · intro hdpos
        rw [hdval] at hdpos
        nlinarith
  · intro hd
    cases t with
    | zero =>
      have hnone : ∀ c : α,
          idx (netReturns (portfolioReturnsOLS h pa pb pos)
            (transactionCosts c pos)) 0 = none := by
        intro c
        by_cases h0 : 0 < pa.length
        · have hnet : idx (netReturns (portfolioReturnsOLS h pa pb pos)
              (transactionCosts c pos)) 0 =
              oSub (idx (portfolioReturnsOLS h pa pb pos) 0)
                (idx (transactionCosts c pos) 0) := by
            apply idx_netReturns
            · rwa [length_portfolioReturnsOLS]
            · rwa [length_transactionCosts, hpos]
          rw [hnet, portfolioReturnsOLS, idx_rangeMap _ h0]
          rfl
        · rw [idx, List.getD_eq_getElem?_getD, List.getElem?_eq_none]
          · rfl
          · rw [netReturns, List.length_zipWith, length_portfolioReturnsOLS]
            exact le_trans (min_le_left _ _) (Nat.le_of_not_lt h0)
      rw [hnone, hnone]
    | succ s =>
      by_cases hlen : s + 1 < pos.length
      · rw [idx_tradesSeries hlen] at hd
        exact Option.noConfusion hd
      · have hge : pa.length ≤ s + 1 := by
          rw [← hpos]
          exact Nat.le_of_not_lt hlen
        have hnone : ∀ c : α,
            idx (netReturns (portfolioReturnsOLS h pa pb pos)
              (transactionCosts c pos)) (s + 1) = none := by
          intro c
          rw [idx, List.getD_eq_getElem?_getD, List.getElem?_eq_none]
          · rfl
          · rw [netReturns, List.length_zipWith, length_portfolioReturnsOLS]
            exact le_trans (min_le_left _ _) hge
        rw [hnone, hnone]

/-- C7, witness at a concrete input: position sequence `0, 1` on prices
`a = [1, 2]`, `b = [1, 3]` with hedge ratio `2`; a trade of size 1 is recorded
at timestamp 1 and the higher commission gives the strictly smaller net
return. -/
theorem claim7_witness :
    ∃ x y,
      idx (netReturns (portfolioReturnsOLS (2 : ℚ) [1, 2] [1, 3] [0, 1])
        (transactionCosts (2 / 1000) [0, 1])) 1 = some x ∧
      idx (netReturns (portfolioReturnsOLS (2 : ℚ) [1, 2] [1, 3] [0, 1])
        (transactionCosts (1 / 1000) [0, 1])) 1 = some y ∧
      x ≤ y ∧ ((1 : ℚ) = 0 → x = y) ∧ ((0 : ℚ) < 1 → x < y) :=
  (claim7_commission (2 : ℚ) [1, 2] [1, 3] [0, 1] (by norm_num) (by norm_num) 1).1 1
    (by norm_num [idx_tradesSeries])

/-! ### Claim C9 -/

theorem kalmanMeansAux_take (q r : α) :
    ∀ (n : ℕ) (s : α × α) (obs1 obs2 : List α), obs1.take n = obs2.take n →
      (kalmanMeansAux q r s obs1).take n = (kalmanMeansAux q r s obs2).take n := by
  intro n
  induction n with
  | zero =>
    intro s obs1 obs2 _
    rfl
  | succ m ih =>
    intro s obs1 obs2 h
    cases obs1 with
    | nil =>
      cases obs2 with
      | nil => rfl
      | cons y ys => simp at h
    | cons x xs =>
      cases obs2 with
      | nil => simp at h
      | cons y ys =>
        rw [List.take_succ_cons, List.take_succ_cons] at h
        have hx : x = y := (List.cons_eq_cons.mp h).1
        have hxs : xs.take m = ys.take m := (List.cons_eq_cons.mp h).2
        subst hx
        show ((kalmanStep q r s x).1 :: kalmanMeansAux q r (kalmanStep q r s x) xs).take (m + 1) =
          ((kalmanStep q r s x).1 :: kalmanMeansAux q r (kalmanStep q r s x) ys).take (m + 1)
        rw [List.take_succ_cons, List.take_succ_cons, ih _ xs ys hxs]

/-- C9: the dynamic (Kalman) hedge-ratio estimator is strictly causal - two
price-pair inputs agreeing on their first `n` observations yield the same
posterior-mean series on those first `n` timestamps, whatever follows - and
both the dynamic and the static estimator are deterministic: identical inputs
give identical outputs (immediate, since the embedding is a pure function of
the observation sequence, as the estimator itself is). -/
theorem claim9_causal (pa pb pa2 pb2 : List α) (n : ℕ)
    (ha : pa.take n = pa2.take n) (hb : pb.take n = pb2.take n) :
    (kalmanHedgeSeries pa pb).take n = (kalmanHedgeSeries pa2 pb2).take n ∧
    (pa = pa2 → pb = pb2 →
      kalmanHedgeSeries pa pb = kalmanHedgeSeries pa2 pb2 ∧
      olsSlope pa pb = olsSlope pa2 pb2) := by
  constructor
  · rw [kalmanHedgeSeries, kalmanHedgeSeries]
    apply kalmanMeansAux_take
    rw [List.take_zipWith, List.take_zipWith, ha, hb]
  · rintro rfl rfl
    exact ⟨rfl, rfl⟩

/-- C9, witness: two observation pairs agreeing on their first two timestamps
but differing afterwards produce the same first two posterior means. -/
theorem claim9_witness :
    (kalmanHedgeSeries ([1, 2, 5] : List ℚ) [1, 1, 9]).take 2 =
      (kalmanHedgeSeries ([1, 2, 7] : List ℚ) [1, 1, 4]).take 2 :=
  (claim9_causal ([1, 2, 5] : List ℚ) [1, 1, 9] [1, 2, 7] [1, 1, 4] 2 rfl rfl).1

/-! ### Claim C6 -/

theorem tickerPairs_fst_mem {β : Type*} {l : List β} {p : β × β}
    (h : p ∈ tickerPairs l) : p.1 ∈ l := by
  induction l with
  | nil => simp [tickerPairs] at h
  | cons x xs ih =>
    rw [tickerPairs, List.mem_append] at h
    rcases h with h | h
    · rcases List.mem_map.mp h with ⟨y, -, rfl⟩
      exact List.mem_cons_self _ _
    · exact List.mem_cons_of_mem _ (ih h)

theorem tickerPairs_nodup {β : Type*} {l : List β} (h : l.Nodup) :
    (tickerPairs l).Nodup := by
  induction l with
  | nil => exact List.nodup_nil
  | cons x xs ih =>
    rw [tickerPairs]
    rcases List.nodup_cons.mp h with ⟨hx, hxs⟩
    refine List.Nodup.append ?_ (ih hxs) ?_
    · exact (List.nodup_map_iff_inj_on hxs).mpr fun a _ b _ hab =>
        congrArg Prod.snd hab
    · intro p hp hp2
      rcases List.mem_map.mp hp with ⟨y, -, rfl⟩
      exact hx (tickerPairs_fst_mem hp2)

/-- C6: the cointegration scan returns exactly the unordered ticker pairs (each
enumerated once) on which the test succeeds with p-value below the threshold -
pairs on which the test raises are skipped and scanning continues - and the
result rows are sorted ascending by p-value; when the tickers are distinct the
returned pair column has no duplicates. -/
theorem claim6_scan {β : Type*} (test : β → β → Option (ℚ × ℚ))
    (tickers : List β) (θ : ℚ) :
    List.Sorted (fun u v : CointResult β => u.p_value ≤ v.p_value)
      (find_cointegrated_pairs test tickers θ) ∧
    (∀ r : CointResult β, r ∈ find_cointegrated_pairs test tickers θ ↔
      ∃ p ∈ tickerPairs tickers, ∃ spv : ℚ × ℚ,
        test p.1 p.2 = some spv ∧ spv.2 < θ ∧ r = ⟨p, spv.2, spv.1⟩) ∧
    (tickers.Nodup →
      ((find_cointegrated_pairs test tickers θ).map fun r => r.pair).Nodup) := by
  have hf : ∀ (p : β × β) (r : CointResult β),
      ((test p.1 p.2).bind fun rr =>
        if rr.2 < θ then some ⟨p, rr.2, rr.1⟩ else none) = some r ↔
      ∃ spv : ℚ × ℚ, test p.1 p.2 = some spv ∧ spv.2 < θ ∧ r = ⟨p, spv.2, spv.1⟩ := by
    intro p r
    constructor
    · intro h
      rcases Option.bind_eq_some.mp h with ⟨spv, hspv, hif⟩
      by_cases hθ : spv.2 < θ
      · rw [if_pos hθ] at hif
        exact ⟨spv, hspv, hθ, (Option.some_injective _ hif).symm⟩
      · rw [if_neg hθ] at hif
        exact Option.noConfusion hif
    · rintro ⟨spv, hspv, hθ, rfl⟩
      rw [hspv, Option.some_bind, if_pos hθ]
  refine ⟨?_, ?_, ?_⟩
  · have hs := @List.sorted_mergeSort (CointResult β)
      (fun u v : CointResult β => decide (u.p_value ≤ v.p_value))
      (fun a b c hab hbc => by
        rw [decide_eq_true_eq] at hab hbc ⊢
        exact le_trans hab hbc)
      (fun a b => by
        rcases le_total a.p_value b.p_value with h | h
        · rw [Bool.or_eq_true, decide_eq_true_eq]
          exact Or.inl h
        · rw [Bool.or_eq_true, decide_eq_true_eq, decide_eq_true_eq]
          exact Or.inr h)
      ((tickerPairs tickers).filterMap fun p =>
        (test p.1 p.2).bind fun rr => if rr.2 < θ then some ⟨p, rr.2, rr.1⟩ else none)
    rw [find_cointegrated_pairs]
    exact hs.imp fun h => of_decide_eq_true h
  · intro r
    rw [find_cointegrated_pairs,
      (List.mergeSort_perm _ _).mem_iff, List.mem_filterMap]
    constructor
    · rintro ⟨p, hp, hfp⟩
      exact ⟨p, hp, (hf p r).mp hfp⟩
    · rintro ⟨p, hp, hspv⟩
      exact ⟨p, hp, (hf p r).mpr hspv⟩
  · intro hnodup
    have hperm : ((find_cointegrated_pairs test tickers θ).map fun r => r.pair).Perm
        (((tickerPairs tickers).filterMap fun p =>
          (test p.1 p.2).bind fun rr =>
            if rr.2 < θ then some (⟨p, rr.2, rr.1⟩ : CointResult β)
            else none).map fun r => r.pair) :=
      (List.mergeSort_perm _ _).map _
    rw [hperm.nodup_iff, List.map_filterMap]
    apply List.Nodup.filterMap _ (tickerPairs_nodup hnodup)
    intro p p' q hq hq'
    simp only [Option.mem_def, Option.map_eq_some'] at hq hq'
    rcases hq with ⟨r, hr, rfl⟩
    rcases hq' with ⟨r', hr', hpair⟩
    rcases (hf p r).mp hr with ⟨spv, -, -, rfl⟩
    rcases (hf p' r').mp hr' with ⟨spv', -, -, rfl⟩
    exact hpair.symm

/-- C6, witness: a three-ticker universe where one pair tests below the
threshold, one pair raises (is skipped) and one tests above the threshold; the
scan's pair column has no duplicates. -/
theorem claim6_witness :
    ((find_cointegrated_pairs
      (fun x y : ℕ => if x = 0 ∧ y = 1 then some (1, 1 / 100)
        else if x = 0 ∧ y = 2 then none else some (2, 1 / 10))
      [0, 1, 2] (5 / 100)).map fun r => r.pair).Nodup :=
  (claim6_scan
    (fun x y : ℕ => if x = 0 ∧ y = 1 then some (1, 1 / 100)
      else if x = 0 ∧ y = 2 then none else some (2, 1 / 10))
    [0, 1, 2] (5 / 100)).2.2 (by decide)

/-! ### Claim C8 -/

theorem rollingVar_nonneg {W : ℕ} {s : List ℝ} {t : ℕ} {v : ℝ}
    (h : rollingVar W s t = some v) : 0 ≤ v := by
  rw [rollingVar] at h
  by_cases hc : t + 1 < W ∨ W ≤ 1
  · rw [if_pos hc] at h
    exact Option.noConfusion h
  · rw [if_neg hc] at h
    have hv := (Option.some_injective _ h).symm
    subst hv
    apply div_nonneg
    · apply List.sum_nonneg
      intro x hx
      rcases List.mem_map.mp hx with ⟨y, -, rfl⟩
      exact sq_nonneg _
    · exact Nat.cast_nonneg _

/-- C8, counterexample.  At window length `W = 1` the claim fails: pandas
computes the rolling standard deviation with `ddof = 1`, so a one-observation
window has zero degrees of freedom and the standard deviation is NaN - not
zero - at every timestamp.  With spread `0, 1` the timestamp `t = 1` is not
among the first `W - 1 = 0` timestamps and the rolling standard deviation is
not zero there, yet the z-score is undefined, contradicting the claim for
every spread series and window length. -/
theorem claim8_counterexample :
    zScore 1 [0, 1] 1 = none ∧ ¬ (1 + 1 < 1) ∧
    rollingStd 1 [0, 1] 1 ≠ some 0 ∧ 1 < ([0, 1] : List ℝ).length := by
  have hv : rollingVar 1 ([0, 1] : List ℝ) 1 = none := by
    rw [rollingVar, if_pos (Or.inr le_rfl)]
  have hm : rollingMean 1 ([0, 1] : List ℝ) 1 = some 1 := by
    norm_num [rollingMean, rollingWindow]
  refine ⟨?_, by norm_num, ?_, by norm_num⟩
  · rw [zScore, hv, hm]
  · rw [rollingStd, hv]
    exact fun h => Option.noConfusion h

/-- C8, amended: for every spread series and window length `W ≥ 2` (with
`W = 1` the sample standard deviation has zero degrees of freedom and the
z-score is undefined everywhere), the z-score at a timestamp of the series is
undefined exactly on the first `W - 1` timestamps (incomplete window) and
where the rolling standard deviation is zero; elsewhere it equals
`(spread(t) - rolling_mean(t, W)) / rolling_std(t, W)`, and a zero or missing
denominator yields a missing value, never a fault. -/
theorem claim8_amended (s : List ℝ) (W t : ℕ) (hW : 2 ≤ W) (_ht : t < s.length) :
    (zScore W s t = none ↔ t + 1 < W ∨ rollingStd W s t = some 0) ∧
    (∀ x, zScore W s t = some x →
      ∃ m v, rollingMean W s t = some m ∧ rollingVar W s t = some v ∧ 0 < v ∧
        x = (s.getD t 0 - m) / Real.sqrt v) := by
  by_cases hw : t + 1 < W
  · have hm : rollingMean W s t = none := by rw [rollingMean, if_pos hw]
    have hv : rollingVar W s t = none := by rw [rollingVar, if_pos (Or.inl hw)]
    have hz : zScore W s t = none := by rw [zScore, hm, hv]
    refine ⟨⟨fun _ => Or.inl hw, fun _ => hz⟩, ?_⟩
    intro x hx
    rw [hz] at hx
    exact Option.noConfusion hx
  · have hm : rollingMean W s t = some ((rollingWindow W s t).sum / (W : ℝ)) := by
      rw [rollingMean, if_neg hw]
    have hv : rollingVar W s t = some ((((rollingWindow W s t).map fun v =>
        (v - (rollingWindow W s t).sum / (W : ℝ)) ^ 2).sum) / ((W - 1 : ℕ) : ℝ)) := by
      rw [rollingVar, if_neg]
      rintro (h | h)
      · exact hw h
      · omega
    set V : ℝ := (((rollingWindow W s t).map fun v =>
      (v - (rollingWindow W s t).sum / (W : ℝ)) ^ 2).sum) / ((W - 1 : ℕ) : ℝ) with hV
    have hVnonneg : 0 ≤ V := rollingVar_nonneg hv
    by_cases hv0 : V = 0
    · have hz : zScore W s t = none := by
        rw [zScore, hm, hv]
        exact if_pos hv0
      refine ⟨⟨fun _ => Or.inr ?_, fun _ => hz⟩, ?_⟩
      · rw [rollingStd, hv, Option.map_some', hv0, Real.sqrt_zero]
      · intro x hx
        rw [hz] at hx
        exact Option.noConfusion hx
    · have hz : zScore W s t = some ((s.getD t 0 -
          (rollingWindow W s t).sum / (W : ℝ)) / Real.sqrt V) := by
        rw [zScore, hm, hv]
        exact if_neg hv0
      constructor
      · constructor
        · intro h
          rw [hz] at h
          exact Option.noConfusion h
        · rintro (h | h)
          · exact absurd h hw
          · rw [rollingStd, hv, Option.map_some'] at h
            have := Option.some_injective _ h
            exact absurd (Real.sqrt_eq_zero hVnonneg |>.mp this) hv0
      · intro x hx
        rw [hz] at hx
        refine ⟨(rollingWindow W s t).sum / (W : ℝ), V, hm, hv,
          lt_of_le_of_ne hVnonneg (Ne.symm hv0), ?_⟩
        exact (Option.some_injective _ hx).symm

/-- C8, witness for the amended claim: window 2 on the spread `0, 1, 1`; at
timestamp 1 the window is full and has nonzero variance, so the z-score is
defined and equals the standardized spread. -/
theorem claim8_witness :
    (zScore 2 [0, 1, 1] 1 = none ↔ 1 + 1 < 2 ∨ rollingStd 2 [0, 1, 1] 1 = some 0) ∧
    (∀ x, zScore 2 [0, 1, 1] 1 = some x →
      ∃ m v, rollingMean 2 [0, 1, 1] 1 = some m ∧ rollingVar 2 [0, 1, 1] 1 = some v ∧
        0 < v ∧ x = (([0, 1, 1] : List ℝ).getD 1 0 - m) / Real.sqrt v) :=
  claim8_amended [0, 1, 1] 2 1 le_rfl (by norm_num)

theorem div_sqrt_gt_of_sq {num v c : ℝ} (hv : 0 < v) (hc : 0 ≤ c)
    (hnum : 0 < num) (h : c ^ 2 * v < num ^ 2) : c < num / Real.sqrt v := by
  have hs : 0 < Real.sqrt v := Real.sqrt_pos.mpr hv
  rw [lt_div_iff₀ hs]
  nlinarith [Real.sq_sqrt hv.le, hs, mul_nonneg hc hs.le]

theorem positionsBT_eval3 (E X A B : α) (hA1 : ¬ E < A) (hA2 : A < -E)
    (hA3 : ¬ -X ≤ A) (hB1 : E < B) (hB2 : -X ≤ B) (hB3 : ¬ B ≤ X) :
    positionsBT E X [none, some A, some B] = [0, 1, 0] := by
  have h1 : entryStage E [none, some A, some B] = [none, some 1, some (-1)] := by
    simp [entryStage, entrySignal, hA1, hA2, hB1]
  have h2 : longExitStage E X [none, some A, some B] = [none, some 1, some 0] := by
    norm_num [longExitStage, h1, idx, shiftIdx, zGe, List.range_succ, List.range_zero,
      List.getD_cons_zero, List.getD_cons_succ, hA3, hB2]
  have h3 : shortExitStage E X [none, some A, some B] = [none, some 1, some 0] := by
    norm_num [shortExitStage, h2, idx, shiftIdx, zLe, List.range_succ, List.range_zero,
      List.getD_cons_zero, List.getD_cons_succ, hB3]
    simp
  rw [positionsBT, h3]
  norm_num [ffill0]

/-- C2, evaluation at a failing input.  Prices `a = 1, 5, 11`, `b = 1, 2, 3`
(OLS hedge ratio 5, spread `-4, -5, -4`), window 2, entry threshold 0.5, exit
threshold 0.5, commission 0.001: the strategy goes long at timestamp 1 and the
realized return at timestamp 2 is `-1.301`, so the final equity is
`-0.300699 <= 0`.  The total-loss branch of 05 then sets
`total_return = cagr = -1` and `sharpe_ratio = 0` as the claim says, but the
unconditional recomputation after the branch overwrites `max_drawdown` with
`drawdown.min() = -1.301`, not the `-1` the claim requires.  (07's version of
the same branch has no such recomputation and does return `-1`.) -/
theorem claim2_code_bug :
    (∃ e, idx (btEquity 2 (1/2) (1/2) (1/1000) [1, 5, 11] [1, 2, 3]) 2 = some e ∧ e ≤ 0) ∧
    (backtest [1, 5, 11] [1, 2, 3] 2 (1/2) (1/2) (1/1000)).total_return = some (-1) ∧
    (backtest [1, 5, 11] [1, 2, 3] 2 (1/2) (1/2) (1/1000)).cagr = some (-1) ∧
    (backtest [1, 5, 11] [1, 2, 3] 2 (1/2) (1/2) (1/1000)).sharpe = some 0 ∧
    (backtest [1, 5, 11] [1, 2, 3] 2 (1/2) (1/2) (1/1000)).max_drawdown =
      some (-(1301/1000)) ∧
    (-(1301/1000) : ℝ) ≠ -1 := by
  have hols : olsSlope ([1, 5, 11] : List ℝ) [1, 2, 3] = 5 := by norm_num [olsSlope]
  have hspread : btSpread [1, 5, 11] [1, 2, 3] = [-4, -5, -4] := by
    norm_num [btSpread, hols]
  have hz0 : zScore 2 ([-4, -5, -4] : List ℝ) 0 = none := by
    have hm : rollingMean 2 ([-4, -5, -4] : List ℝ) 0 = none := by
      rw [rollingMean, if_pos (by norm_num)]
    have hv : rollingVar 2 ([-4, -5, -4] : List ℝ) 0 = none := by
      rw [rollingVar, if_pos (Or.inl (by norm_num))]
    rw [zScore, hm, hv]
  have hz1 : zScore 2 ([-4, -5, -4] : List ℝ) 1 = some (-(1/2) / Real.sqrt (1/2)) := by
    have hm : rollingMean 2 ([-4, -5, -4] : List ℝ) 1 = some (-(9/2)) := by
      norm_num [rollingMean, rollingWindow]
    have hv : rollingVar 2 ([-4, -5, -4] : List ℝ) 1 = some (1/2) := by
      norm_num [rollingVar, rollingWindow]
    rw [zScore, hm, hv]
    exact (if_neg (by norm_num : ¬ (1/2 : ℝ) = 0)).trans (by norm_num)
  have hz2 : zScore 2 ([-4, -5, -4] : List ℝ) 2 = some ((1/2) / Real.sqrt (1/2)) := by
    have hm : rollingMean 2 ([-4, -5, -4] : List ℝ) 2 = some (-(9/2)) := by
      norm_num [rollingMean, rollingWindow]
    have hv : rollingVar 2 ([-4, -5, -4] : List ℝ) 2 = some (1/2) := by
      norm_num [rollingVar, rollingWindow]
    rw [zScore, hm, hv]
    exact (if_neg (by norm_num : ¬ (1/2 : ℝ) = 0)).trans (by norm_num)
  have hzl : zScoreList 2 ([-4, -5, -4] : List ℝ) =
      [none, some (-(1/2) / Real.sqrt (1/2)), some ((1/2) / Real.sqrt (1/2))] := by
    rw [zScoreList]
    norm_num [List.range_succ, hz0, hz1, hz2]
  have hgt : (1/2 : ℝ) < (1/2) / Real.sqrt (1/2) :=
    div_sqrt_gt_of_sq (by norm_num) (by norm_num) (by norm_num) (by norm_num)
  have hBpos : (0 : ℝ) < (1/2) / Real.sqrt (1/2) := by linarith
  have hposz : positionsBT (1/2 : ℝ) (1/2)
      [none, some (-(1/2) / Real.sqrt (1/2)), some ((1/2) / Real.sqrt (1/2))] =
      [0, 1, 0] := by
    apply positionsBT_eval3
    · rw [neg_div]
      intro hcon
      linarith
    · rw [neg_div]
      exact neg_lt_neg hgt
    · rw [neg_div]
      intro hcon
      rw [le_neg] at hcon
      linarith
    · exact hgt
    · linarith
    · exact not_le.mpr hgt
  have hbtpos : btPositions 2 (1/2) (1/2) [1, 5, 11] [1, 2, 3] = [0, 1, 0] := by
    rw [btPositions, hspread, hzl]
    exact hposz
  have hnet : btNet 2 (1/2) (1/2) (1/1000) [1, 5, 11] [1, 2, 3] =
      [none, some (-(1/1000)), some (-(1301/1000))] := by
    rw [btNet, hols, hbtpos]
    norm_num [netReturns, portfolioReturnsOLS, dailyReturns, tradesSeries,
      transactionCosts, oSub, idx, List.range_succ, List.range_zero,
      List.getD_cons_zero, List.getD_cons_succ, List.zipWith]
  have heq : btEquity 2 (1/2) (1/2) (1/1000) [1, 5, 11] [1, 2, 3] =
      [none, some (999/1000), some (-(300699/1000000))] := by
    rw [btEquity, hnet]
    norm_num [cumulativeReturns, cumprodAux]
  have hdd : drawdownSeries (btEquity 2 (1/2) (1/2) (1/1000) [1, 5, 11] [1, 2, 3]) =
      [none, some 0, some (-(1301/1000))] := by
    rw [heq]
    norm_num [drawdownSeries, cummaxAux, List.zipWith]
  have hmin : seriesMin (drawdownSeries
      (btEquity 2 (1/2) (1/2) (1/1000) [1, 5, 11] [1, 2, 3])) = some (-(1301/1000)) := by
    rw [hdd]
    norm_num [seriesMin, List.filterMap, List.min?, List.foldl, min_def]
  have hfin : idx (btEquity 2 (1/2) (1/2) (1/1000) [1, 5, 11] [1, 2, 3])
      (([1, 5, 11] : List ℝ).length - 1) = some (-(300699/1000000)) := by
    rw [heq]
    rfl
  have hbt : backtest [1, 5, 11] [1, 2, 3] 2 (1/2) (1/2) (1/1000) =
      { total_return := some (-1), cagr := some (-1), sharpe := some 0,
        max_drawdown := some (-(1301/1000)),
        trades := seriesSum (tradesSeries
          (btPositions 2 (1/2) (1/2) [1, 5, 11] [1, 2, 3])) } := by
    rw [backtest, hfin, hmin]
    exact if_pos (by norm_num)
  refine ⟨⟨-(300699/1000000), by rw [heq]; rfl, by norm_num⟩, ?_, ?_, ?_, ?_, by norm_num⟩
  · rw [hbt]
  · rw [hbt]
  · rw [hbt]
  · rw [hbt]


theorem positionsOpt_eval3 (T X A B : α) (hA1 : ¬ T < A) (hA2 : A < -T)
    (hAab : ¬ |A| < X) (hB1 : T < B) (hBab : ¬ |B| < X) :
    positionsOpt T X [none, some A, some B] = [0, 1, -1] := by
  have h1 : entryStage T [none, some A, some B] = [none, some 1, some (-1)] := by
    simp [entryStage, entrySignal, hA1, hA2, hB1]
  have h2 : optExitStage T X [none, some A, some B] = [none, some 1, some (-1)] := by
    norm_num [optExitStage, h1, idx, shiftIdx, zAbsLt, List.range_succ, List.range_zero,
      List.getD_cons_zero, List.getD_cons_succ, hAab, hBab]
  rw [positionsOpt, h2]
  norm_num [ffill0]

/-- C3, evaluation at a failing input.  Prices `a = 3, 1, 5`, `b = 1, 2, 3`
(OLS hedge ratio 1, spread `2, -1, 2`), a one-window one-threshold grid with
window 2, entry threshold 0.7, exit threshold 0.5, commission 0.001.  The
z-scores after entry are `-1.5/sqrt(4.5)` and `+1.5/sqrt(4.5)`; at timestamp 2
the backtest's exit mask fires (the raw entry mask fired at timestamp 1) and
closes to flat, while the optimizer's own exit rule `abs(z) < 0.5` does not
fire and its entry mask flips the position to short.  The two position
sequences, trade costs, net returns and hence Sharpe ratios differ, so the
one-cell grid does not reproduce the direct backtest. -/
theorem claim3_code_bug :
    run_optimization [3, 1, 5] [1, 2, 3] [2] [7/10] (1/2) (1/1000) =
      [{ window := 2, threshold := 7/10,
         sharpe := sharpeOf (optNet 2 (7/10) (1/2) (1/1000) [3, 1, 5] [1, 2, 3]) }] ∧
    sharpeOf (optNet 2 (7/10) (1/2) (1/1000) [3, 1, 5] [1, 2, 3]) ≠
      (backtest [3, 1, 5] [1, 2, 3] 2 (7/10) (1/2) (1/1000)).sharpe := by
  have hols : olsSlope ([3, 1, 5] : List ℝ) [1, 2, 3] = 1 := by norm_num [olsSlope]
  have hspread : btSpread [3, 1, 5] [1, 2, 3] = [2, -1, 2] := by
    norm_num [btSpread, hols]
  have hz0 : zScore 2 ([2, -1, 2] : List ℝ) 0 = none := by
    have hm : rollingMean 2 ([2, -1, 2] : List ℝ) 0 = none := by
      rw [rollingMean, if_pos (by norm_num)]
    have hv : rollingVar 2 ([2, -1, 2] : List ℝ) 0 = none := by
      rw [rollingVar, if_pos (Or.inl (by norm_num))]
    rw [zScore, hm, hv]
  have hz1 : zScore 2 ([2, -1, 2] : List ℝ) 1 = some (-(3/2) / Real.sqrt (9/2)) := by
    have hm : rollingMean 2 ([2, -1, 2] : List ℝ) 1 = some (1/2) := by
      norm_num [rollingMean, rollingWindow]
    have hv : rollingVar 2 ([2, -1, 2] : List ℝ) 1 = some (9/2) := by
      norm_num [rollingVar, rollingWindow]
    rw [zScore, hm, hv]
    exact (if_neg (by norm_num : ¬ (9/2 : ℝ) = 0)).trans (by norm_num)
  have hz2 : zScore 2 ([2, -1, 2] : List ℝ) 2 = some ((3/2) / Real.sqrt (9/2)) := by
    have hm : rollingMean 2 ([2, -1, 2] : List ℝ) 2 = some (1/2) := by
      norm_num [rollingMean, rollingWindow]
    have hv : rollingVar 2 ([2, -1, 2] : List ℝ) 2 = some (9/2) := by
      norm_num [rollingVar, rollingWindow]
    rw [zScore, hm, hv]
    exact (if_neg (by norm_num : ¬ (9/2 : ℝ) = 0)).trans (by norm_num)
  have hzl : zScoreList 2 ([2, -1, 2] : List ℝ) =
      [none, some (-(3/2) / Real.sqrt (9/2)), some ((3/2) / Real.sqrt (9/2))] := by
    rw [zScoreList]
    norm_num [List.range_succ, hz0, hz1, hz2]
  have hgt7 : (7/10 : ℝ) < (3/2) / Real.sqrt (9/2) :=
    div_sqrt_gt_of_sq (by norm_num) (by norm_num) (by norm_num) (by norm_num)
  have hgt5 : (1/2 : ℝ) < (3/2) / Real.sqrt (9/2) :=
    div_sqrt_gt_of_sq (by norm_num) (by norm_num) (by norm_num) (by norm_num)
  have hBpos : (0 : ℝ) < (3/2) / Real.sqrt (9/2) := by linarith
  have hposbt : positionsBT (7/10 : ℝ) (1/2)
      [none, some (-(3/2) / Real.sqrt (9/2)), some ((3/2) / Real.sqrt (9/2))] =
      [0, 1, 0] := by
    apply positionsBT_eval3
    · rw [neg_div]
      intro hcon
      linarith
    · rw [neg_div]
      exact neg_lt_neg hgt7
    · rw [neg_div]
      intro hcon
      rw [le_neg] at hcon
      linarith
    · exact hgt7
    · linarith
    · exact not_le.mpr hgt5
  have hposopt : positionsOpt (7/10 : ℝ) (1/2)
      [none, some (-(3/2) / Real.sqrt (9/2)), some ((3/2) / Real.sqrt (9/2))] =
      [0, 1, -1] := by
    apply positionsOpt_eval3
    · rw [neg_div]
      intro hcon
      linarith
    · rw [neg_div]
      exact neg_lt_neg hgt7
    · rw [neg_div, abs_neg, abs_of_pos hBpos]
      exact not_lt.mpr hgt5.le
    · exact hgt7
    · rw [abs_of_pos hBpos]
      exact not_lt.mpr hgt5.le
  have hbtpos : btPositions 2 (7/10) (1/2) [3, 1, 5] [1, 2, 3] = [0, 1, 0] := by
    rw [btPositions, hspread, hzl]
    exact hposbt
  have hnet05 : btNet 2 (7/10) (1/2) (1/1000) [3, 1, 5] [1, 2, 3] =
      [none, some (-(1/1000)), some (3499/1000)] := by
    rw [btNet, hols, hbtpos]
    norm_num [netReturns, portfolioReturnsOLS, dailyReturns, tradesSeries,
      transactionCosts, oSub, idx, List.range_succ, List.range_zero,
      List.getD_cons_zero, List.getD_cons_succ, List.zipWith]
  have hnet06 : optNet 2 (7/10) (1/2) (1/1000) [3, 1, 5] [1, 2, 3] =
      [none, some (-(1/1000)), some (3498/1000)] := by
    rw [optNet, hols, hspread, hzl, hposopt]
    norm_num [netReturns, portfolioReturnsOLS, dailyReturns, tradesSeries,
      transactionCosts, oSub, idx, List.range_succ, List.range_zero,
      List.getD_cons_zero, List.getD_cons_succ, List.zipWith]
  have hm05 : seriesMean [none, some (-(1/1000) : ℝ), some (3499/1000)] =
      some (1749/1000) := by
    norm_num [seriesMean, List.filterMap]
  have hv05 : seriesVar [none, some (-(1/1000) : ℝ), some (3499/1000)] =
      some (49/8) := by
    norm_num [seriesVar, List.filterMap]
  have hm06 : seriesMean [none, some (-(1/1000) : ℝ), some (3498/1000)] =
      some (3497/2000) := by
    norm_num [seriesMean, List.filterMap]
  have hv06 : seriesVar [none, some (-(1/1000) : ℝ), some (3498/1000)] =
      some (12243001/2000000) := by
    norm_num [seriesVar, List.filterMap]
  have hsh05 : sharpeOf [none, some (-(1/1000) : ℝ), some (3499/1000)] =
      some ((1749/1000) / Real.sqrt (49/8) * Real.sqrt 252) := by
    rw [sharpeOf, hm05, hv05, Option.map_some']
    exact if_neg (Real.sqrt_pos.mpr (by norm_num : (0:ℝ) < 49/8)).ne'
  have hsh06 : sharpeOf [none, some (-(1/1000) : ℝ), some (3498/1000)] =
      some ((3497/2000) / Real.sqrt (12243001/2000000) * Real.sqrt 252) := by
    rw [sharpeOf, hm06, hv06, Option.map_some']
    exact if_neg (Real.sqrt_pos.mpr (by norm_num : (0:ℝ) < 12243001/2000000)).ne'
  have heq : btEquity 2 (7/10) (1/2) (1/1000) [3, 1, 5] [1, 2, 3] =
      [none, some (999/1000), some (4494501/1000000)] := by
    rw [btEquity, hnet05]
    norm_num [cumulativeReturns, cumprodAux]
  have hfin : idx (btEquity 2 (7/10) (1/2) (1/1000) [3, 1, 5] [1, 2, 3])
      (([3, 1, 5] : List ℝ).length - 1) = some (4494501/1000000) := by
    rw [heq]
    rfl
  have hbt : backtest [3, 1, 5] [1, 2, 3] 2 (7/10) (1/2) (1/1000) =
      { total_return := some ((4494501/1000000 : ℝ) - 1),
        cagr := some ((4494501/1000000 : ℝ) ^
          ((252 : ℝ) / (([3, 1, 5] : List ℝ).length : ℝ)) - 1),
        sharpe := sharpeOf (btNet 2 (7/10) (1/2) (1/1000) [3, 1, 5] [1, 2, 3]),
        max_drawdown := seriesMin (drawdownSeries
          (btEquity 2 (7/10) (1/2) (1/1000) [3, 1, 5] [1, 2, 3])),
        trades := seriesSum (tradesSeries
          (btPositions 2 (7/10) (1/2) [3, 1, 5] [1, 2, 3])) } := by
    rw [backtest, hfin]
    exact if_neg (by norm_num)
  constructor
  · rfl
  · rw [hbt]
    show sharpeOf (optNet 2 (7/10) (1/2) (1/1000) [3, 1, 5] [1, 2, 3]) ≠
      sharpeOf (btNet 2 (7/10) (1/2) (1/1000) [3, 1, 5] [1, 2, 3])
    rw [hnet05, hnet06, hsh05, hsh06]
    intro hcon
    rw [Option.some.injEq] at hcon
    have h252 : (0 : ℝ) < Real.sqrt 252 := Real.sqrt_pos.mpr (by norm_num)
    have hs1 : (0 : ℝ) < Real.sqrt (49/8) := Real.sqrt_pos.mpr (by norm_num)
    have hs2 : (0 : ℝ) < Real.sqrt (12243001/2000000) := Real.sqrt_pos.mpr (by norm_num)
    have h1 : (3497/2000 : ℝ) / Real.sqrt (12243001/2000000) =
        (1749/1000) / Real.sqrt (49/8) := mul_right_cancel₀ h252.ne' hcon
    rw [div_eq_div_iff hs2.ne' hs1.ne'] at h1
    have h2 := congrArg (fun x => x ^ 2) h1
    simp only [mul_pow] at h2
    rw [Real.sq_sqrt (by norm_num : (0:ℝ) ≤ 49/8),
      Real.sq_sqrt (by norm_num : (0:ℝ) ≤ 12243001/2000000)] at h2
    norm_num at h2

end StatArb
